import Mathlib

/-!
# Verification of the conversion engine of `src/video_converter.py`

A shallow embedding of the orchestration core of the Video_Converter
repository: the progress parser embedded in `FFmpegConverter.run`
(lines 96-120), the command builder (lines 53-77), the NVENC capability
probe `FFmpegConverter._is_nvenc_available` (lines 144-218), the exit
classification (lines 126-139), and the sequencing handlers of
`VideoConverterApp` (`start_conversion`, `cancel_conversion`,
`conversion_completed`, `conversion_failed`).

Python machine floats are modelled as exact rationals (`ℚ`); every
concrete value appearing in the claims is exactly representable, and the
numeric literals reaching `int()`/`float()` in the modelled paths are
finite decimal literals, so no rounding discrepancy arises on the inputs
considered here.  External effects (subprocess spawning, wall-clock
reads, the Qt signal queue) are modelled by an explicit environment
(`World`) and by an explicit small-step machine over the application
state.
-/

namespace VideoConverter

/- The Batteries rational-number operations are `@[irreducible]`, which
blocks `decide` on concrete rational arithmetic; restore default
reducibility locally so that concrete executions evaluate. -/
attribute [local semireducible] Rat.add Rat.mul Rat.sub Rat.inv

/-! ## Python string primitives, on `List Char` -/

/-- Last-first split on a separator list, like Python's
`str.split(sep)` for a non-empty `sep`: splits at every occurrence of
the separator, keeping empty pieces.  Fuel-driven so that it is
structurally recursive; `fuel = cs.length` always suffices. -/
def splitSubF (sep : List Char) : Nat → List Char → List Char → List (List Char)
  | 0, cs, acc => [acc.reverse ++ cs]
  | _ + 1, [], acc => [acc.reverse]
  | n + 1, c :: rest, acc =>
    if sep.isPrefixOf (c :: rest) then
      acc.reverse :: splitSubF sep n ((c :: rest).drop sep.length) []
    else
      splitSubF sep n rest (c :: acc)

/-- Python `text.split(sep)` for a non-empty separator. -/
def pySplitOn (sep cs : List Char) : List (List Char) :=
  splitSubF sep cs.length cs []

/-- Python `needle in hay` (substring containment). -/
def listContains (needle : List Char) : List Char → Bool
  | [] => needle.isEmpty
  | c :: rest => needle.isPrefixOf (c :: rest) || listContains needle rest

/-- Python `needle in hay` on strings. -/
def containsSubstr (hay needle : String) : Bool :=
  listContains needle.data hay.data

/-- Helper for whitespace splitting: split at every whitespace
character, keeping empty pieces. -/
def splitWsAux : List Char → List Char → List (List Char)
  | [], acc => [acc.reverse]
  | c :: rest, acc =>
    if c.isWhitespace then acc.reverse :: splitWsAux rest []
    else splitWsAux rest (c :: acc)

/-- Python `str.split()` with no argument: split on whitespace runs,
discarding empty tokens. -/
def pySplitWs (cs : List Char) : List (List Char) :=
  (splitWsAux cs []).filter (fun t => ¬ t.isEmpty)

/-- Split at every `':'`, keeping empty pieces — Python `s.split(':')`. -/
def splitColonAux : List Char → List Char → List (List Char)
  | [], acc => [acc.reverse]
  | c :: rest, acc =>
    if c = ':' then acc.reverse :: splitColonAux rest []
    else splitColonAux rest (c :: acc)

/-- Python `s.split(':')`. -/
def pySplitColon (cs : List Char) : List (List Char) :=
  splitColonAux cs []

/-- Strip leading and trailing whitespace, like Python `str.strip()`. -/
def trimWs (cs : List Char) : List Char :=
  ((cs.dropWhile Char.isWhitespace).reverse.dropWhile Char.isWhitespace).reverse

/-! ## Python number conversions -/

/-- Value of a non-empty all-digit character list, `none` otherwise. -/
def readDigits? (cs : List Char) : Option Nat :=
  if cs.isEmpty then none
  else if cs.all Char.isDigit then
    some (cs.foldl (fun a c => a * 10 + (c.toNat - 48)) 0)
  else none

/-- Python `int(s)` restricted to the decimal-literal forms that occur
in this program's inputs: optional surrounding whitespace, an optional
sign, then decimal digits.  Returns `none` where CPython raises
`ValueError`. -/
def pyInt (cs : List Char) : Option Int :=
  match trimWs cs with
  | '+' :: ds => (readDigits? ds).map Int.ofNat
  | '-' :: ds => (readDigits? ds).map (fun n => -(n : Int))
  | ds => (readDigits? ds).map Int.ofNat

/-- Digits of an optional fractional part: all digits (may be empty). -/
def fracVal (cs : List Char) : ℚ :=
  (cs.foldl (fun a c => a * 10 + (c.toNat - 48)) 0 : ℕ) / ((10 : ℚ) ^ cs.length)

/-- Python `float(s)` restricted to finite decimal literals (optional
sign, `d*`, optional `.` and `d*`, at least one digit overall): the
forms produced by the program's own inputs.  Exponent forms and the
non-finite literals (`inf`, `nan`) are outside the model.  Returns
`none` where CPython raises `ValueError`. -/
def pyFloat (cs : List Char) : Option ℚ :=
  let t := trimWs cs
  let signed : Bool × List Char :=
    match t with
    | '+' :: rest => (false, rest)
    | '-' :: rest => (true, rest)
    | rest => (false, rest)
  let body := signed.2
  let val? : Option ℚ :=
    match pySplitOn ['.'] body with
    | [ip] => (readDigits? ip).map (fun n => (n : ℚ))
    | [ip, fp] =>
      if ip.isEmpty ∧ fp.isEmpty then none
      else if ip.all Char.isDigit ∧ fp.all Char.isDigit then
        some ((ip.foldl (fun a c => a * 10 + (c.toNat - 48)) 0 : ℕ) + fracVal fp)
      else none
    | _ => none
  val?.map (fun v => if signed.1 then -v else v)

/-- Python `int(x)` on a real value: truncation toward zero. -/
def pyTrunc (q : ℚ) : ℤ :=
  if q < 0 then ⌈q⌉ else ⌊q⌋

/-! ## The progress parser (`FFmpegConverter.run`, lines 96-120)

```python
if "time=" in line:
    try:
        time_str = line.split("time=")[1].split()[0]
        h, m, s = time_str.split(':')
        current_seconds = int(h) * 3600 + int(m) * 60 + float(s)
        progress = min(int(current_seconds / self.duration * 100), 99)
        elapsed_time = time.time() - self.start_time
        if progress > 0:
            total_estimated_time = elapsed_time * 100 / progress
            eta = total_estimated_time - elapsed_time
        else:
            eta = 0
        self.progress_update.emit(progress, eta)
    except (IndexError, ValueError, ZeroDivisionError):
        pass
```
-/

/-- Extract the elapsed-media-time marker of a log line, exactly as the
code does: the text between the first and second occurrence of `time=`,
whitespace-split, first token, split at `':'` into exactly three parts
parsed as `int`, `int`, `float`.  `none` on every path where the code's
`except (IndexError, ValueError, ZeroDivisionError)` swallows the
failure. -/
def parseMarker (line : String) : Option ℚ :=
  let pieces := pySplitOn "time=".data line.data
  match pieces with
  | _ :: after :: _ =>
    match (pySplitWs after).head? with
    | none => none
    | some tok =>
      match pySplitColon tok with
      | [hs, ms, ss] => do
        let h ← pyInt hs
        let m ← pyInt ms
        let s ← pyFloat ss
        pure ((h : ℚ) * 3600 + (m : ℚ) * 60 + s)
      | _ => none
  | _ => none

/-- The per-line progress computation of `FFmpegConverter.run`
(lines 100-120): given the log line, the probed duration, the recorded
start wall-clock time and the current wall-clock time, produce the
`(progress, eta)` pair emitted on `progress_update`, or `none` when the
line yields no sample. -/
def parseProgress (line : String) (duration startTime now : ℚ) :
    Option (Int × ℚ) :=
  match parseMarker line with
  | none => none
  | some current =>
    if duration = 0 then none
    else
      let progress : Int := min (pyTrunc (current / duration * 100)) 99
      let elapsed := now - startTime
      let eta : ℚ :=
        if progress > 0 then elapsed * 100 / (progress : ℚ) - elapsed else 0
      some (progress, eta)

/-! ## Fixed subprocess invocations of the converter

Each is the exact `argv` list built in the source. -/

/-- `_is_ffmpeg_installed` (lines 266-275). -/
def versionCmd : List String := ["ffmpeg", "-version"]

/-- Primary duration probe of `_get_video_duration` (lines 233-239). -/
def ffprobeDurationCmd (input_file : String) : List String :=
  ["ffprobe", "-v", "error", "-show_entries", "format=duration",
   "-of", "default=noprint_wrappers=1:nokey=1", input_file]

/-- Encoder listing of `_is_nvenc_available` (lines 150-154). -/
def encodersCmd : List String := ["ffmpeg", "-hide_banner", "-encoders"]

/-- Best-effort GPU diagnostic of `_is_nvenc_available` (line 167). -/
def nvidiaSmiCmd : List String := ["nvidia-smi"]

/-- Synthetic test encode of `_is_nvenc_available` (lines 182-194). -/
def nvencTestCmd : List String :=
  ["ffmpeg", "-hide_banner", "-y", "-f", "lavfi",
   "-i", "color=c=black:s=32x32:r=1:d=1",
   "-c:v", "h264_nvenc", "-preset", "p1", "-profile:v", "baseline",
   "-b:v", "250k", "-f", "null", "-"]

/-- `FFmpegConverter._get_nvenc_preset` (lines 220-228): map x264 preset
names to NVENC preset tokens, defaulting to `p4`. -/
def getNvencPreset (standard_preset : String) : String :=
  if standard_preset = "veryfast" then "p1"
  else if standard_preset = "medium" then "p4"
  else if standard_preset = "veryslow" then "p7"
  else "p4"

/-- The main conversion command of `FFmpegConverter.run` (lines 53-77). -/
def buildCmd (input_file output_file preset : String) (use_nvenc : Bool) :
    List String :=
  ["ffmpeg", "-i", input_file] ++
    (if use_nvenc then
      ["-c:v", "h264_nvenc", "-preset", getNvencPreset preset,
       "-b:v", "0", "-c:a", "aac"]
    else
      ["-c:v", "libx264", "-preset", preset, "-c:a", "aac"]) ++
    ["-y", output_file]

/-! ## The NVENC capability probe (`_is_nvenc_available`, lines 144-218) -/

/-- Results of the external invocations the probe makes: the stdout of
`ffmpeg -encoders`, and the exit code of the synthetic test encode. -/
structure ProbeEnv where
  encodersStdout : String
  nvencTestReturncode : Int
deriving DecidableEq

/-- `FFmpegConverter._is_nvenc_available`: returns whether the probe
reports NVENC usable, together with the subprocess invocations it ran.
The `nvidia-smi` call is best-effort (its failure is swallowed) and the
probe result is `encoder listed ∧ synthetic test exit code 0`. -/
def isNvencAvailable (env : ProbeEnv) : Bool × List (List String) :=
  let has_nvenc_listed := containsSubstr env.encodersStdout "h264_nvenc"
  if has_nvenc_listed then
    (env.nvencTestReturncode == 0, [encodersCmd, nvidiaSmiCmd, nvencTestCmd])
  else
    (false, [encodersCmd])

/-! ## The job run (`FFmpegConverter.run`, lines 31-142) -/

/-- The three signals of `FFmpegConverter`: `progress_update(int, float)`,
`conversion_complete(str)`, `conversion_error(str)`. -/
inductive Event where
  | progressUpdate (percent : Int) (eta : ℚ)
  | conversionComplete (output_file : String)
  | conversionError (message : String)
deriving DecidableEq

/-- Message of line 38. -/
def ffmpegMissingMsg : String :=
  "FFmpeg is not installed. Please install FFmpeg first."

/-- Message of line 44. -/
def durationMsg : String := "Could not determine video duration."

/-- Message of line 49: emitted when NVENC is requested but the probe
reports it unavailable; the run then continues with `use_nvenc = False`. -/
def nvencFallbackMsg : String :=
  "NVENC hardware encoding is not available. Using software encoding instead."

/-- Message of line 135. -/
def nvencRuntimeMsg : String :=
  "NVIDIA encoder error. Try disabling hardware acceleration or update your GPU drivers."

/-- The NVENC failure signatures of lines 132-134, in source order. -/
def nvencErrorSignatures : List String :=
  ["NVENC", "GPU", "Error initializing", "CUDA", "can\x27t initialize"]

/-- The constructor arguments of `FFmpegConverter.__init__`
(lines 20-28). -/
structure ConverterCfg where
  input_file : String
  output_file : String
  preset : String
  format : String
  use_nvenc : Bool
deriving DecidableEq

/-- The external environment one `run()` invocation observes:
whether `ffmpeg` resolves, the value `_get_video_duration()` returns
(its two probe invocations are kept abstract since no claim constrains
them), the probe environment, the wall-clock at `time.time()` when the
process is spawned, the stdout/stderr line stream of the spawned
process paired with the wall-clock time at which each line is
processed, and the process exit code. -/
structure World where
  ffmpegInstalled : Bool
  duration : ℚ
  probeEnv : ProbeEnv
  startTime : ℚ
  outputLines : List (String × ℚ)
  returncode : Int
deriving DecidableEq

/-- The progress events emitted by the line-monitoring loop
(lines 96-120). -/
def lineEvents (duration startTime : ℚ) (lines : List (String × ℚ)) :
    List Event :=
  lines.filterMap (fun ln =>
    (parseProgress ln.1 duration startTime ln.2).map
      (fun pe => Event.progressUpdate pe.1 pe.2))

/-- `"".join(self.full_output)` (line 131). -/
def fullOutput (lines : List (String × ℚ)) : String :=
  String.join (lines.map (fun ln => ln.1))

/-- The nonzero-exit classification of lines 129-139: if NVENC was used
and any known signature occurs in the captured output, emit the
NVENC runtime error message; otherwise the generic message carrying the
raw exit code. -/
def classifyExit (use_nvenc : Bool) (output_text : String)
    (returncode : Int) : Event :=
  if use_nvenc && nvencErrorSignatures.any (fun sig => containsSubstr output_text sig) then
    Event.conversionError nvencRuntimeMsg
  else
    Event.conversionError ("Conversion failed with error code " ++ toString returncode)

/-- What one `run()` produces: the emitted signals in order, the
subprocess invocations in order, whether the main conversion process
was spawned, and the final value of `self.use_nvenc`. -/
structure RunResult where
  events : List Event
  invocations : List (List String)
  spawned : Bool
  use_nvenc : Bool
deriving DecidableEq

/-- `FFmpegConverter.run` (lines 31-142).  Mirrors the source paths:
missing ffmpeg and unusable duration emit one error and stop before
spawning; a requested-but-unavailable NVENC emits the fallback error on
`conversion_error` and clears `self.use_nvenc` (line 48-50); the
command is then built from the (possibly cleared) flag; each output
line is fed to the progress computation; exit code 0 emits
`(100, 0)` then `conversion_complete`, a nonzero exit code emits the
classified error. -/
def FFmpegConverter.run (cfg : ConverterCfg) (w : World) : RunResult :=
  if !w.ffmpegInstalled then
    { events := [Event.conversionError ffmpegMissingMsg],
      invocations := [versionCmd],
      spawned := false, use_nvenc := cfg.use_nvenc }
  else if w.duration ≤ 0 then
    { events := [Event.conversionError durationMsg],
      invocations := [versionCmd, ffprobeDurationCmd cfg.input_file],
      spawned := false, use_nvenc := cfg.use_nvenc }
  else
    let probe := isNvencAvailable w.probeEnv
    let probeInvocations := if cfg.use_nvenc then probe.2 else []
    let fallbackEvents :=
      if cfg.use_nvenc && !probe.1 then
        [Event.conversionError nvencFallbackMsg]
      else []
    let use_nvenc := cfg.use_nvenc && probe.1
    let cmd := buildCmd cfg.input_file cfg.output_file cfg.preset use_nvenc
    let progressEvents := lineEvents w.duration w.startTime w.outputLines
    let finalEvents :=
      if w.returncode = 0 then
        [Event.progressUpdate 100 0, Event.conversionComplete cfg.output_file]
      else
        [classifyExit use_nvenc (fullOutput w.outputLines) w.returncode]
    { events := fallbackEvents ++ progressEvents ++ finalEvents,
      invocations := [versionCmd, ffprobeDurationCmd cfg.input_file] ++
        probeInvocations ++ [cmd],
      spawned := true, use_nvenc := use_nvenc }

/-! ## The run as an action script

For the application-level machine the same `run()` is replayed as an
ordered script of atomic actions: emitting a signal, spawning the
external process (line 86), and the external process exiting (observed
at line 123).  The fallback error of line 49 precedes the spawn; the
final events follow the exit. -/

/-- One atomic observable action of a worker run. -/
inductive TAct where
  | emit (e : Event)
  | spawnProc
  | exitProc
deriving DecidableEq

/-- `FFmpegConverter.run` as an action script (same branches as
`FFmpegConverter.run`). -/
def runScript (cfg : ConverterCfg) (w : World) : List TAct :=
  if !w.ffmpegInstalled then
    [TAct.emit (Event.conversionError ffmpegMissingMsg)]
  else if w.duration ≤ 0 then
    [TAct.emit (Event.conversionError durationMsg)]
  else
    let probe := isNvencAvailable w.probeEnv
    let fallbackEvents :=
      if cfg.use_nvenc && !probe.1 then
        [Event.conversionError nvencFallbackMsg]
      else []
    let use_nvenc := cfg.use_nvenc && probe.1
    let progressEvents := lineEvents w.duration w.startTime w.outputLines
    let finalEvents :=
      if w.returncode = 0 then
        [Event.progressUpdate 100 0, Event.conversionComplete cfg.output_file]
      else
        [classifyExit use_nvenc (fullOutput w.outputLines) w.returncode]
    fallbackEvents.map TAct.emit ++ [TAct.spawnProc] ++
      progressEvents.map TAct.emit ++ [TAct.exitProc] ++
      finalEvents.map TAct.emit

/-! ## The application sequencer (`VideoConverterApp`)

The application state tracked here is the part the claims are about:
`self.converter_threads` (the queue, built in `start_conversion`
lines 762-786 and popped by the two terminal handlers),
`self.processing_all`, the started worker threads with the remaining
portion of their run scripts, the set of worker indices whose external
process is currently alive, and the queued-but-undispatched signals
(Qt cross-thread signals are queued and dispatched on the main loop).
Each job is tagged with its submission index; the tag is specification
instrumentation only — no transition consults it except to record it. -/

/-- One submitted job: the converter constructor arguments and the
environment its run will observe. -/
structure Job where
  cfg : ConverterCfg
  world : World
deriving DecidableEq

/-- The application state. -/
structure AppState where
  converter_threads : List (Nat × Job)
  processing_all : Bool
  threads : List (Nat × List TAct)
  procActive : List Nat
  pending : List (Nat × Event)
  ui : List (Nat × Event)
  started : List Nat
deriving DecidableEq

/-- `thread.start()`: the worker begins executing its run script. -/
def startThread (p : Nat × Job) (s : AppState) : AppState :=
  { s with threads := s.threads ++ [(p.1, runScript p.2.cfg p.2.world)],
           started := s.started ++ [p.1] }

/-- The queue-advance logic shared verbatim by
`conversion_completed` (lines 843-882) and `conversion_failed`
(lines 884-917): if `self.converter_threads` is nonempty, pop index 0;
then, if `self.processing_all` and threads remain, start the new head;
otherwise reset the UI (no engine-state effect). -/
def handleTerminal (s : AppState) : AppState :=
  match s.converter_threads with
  | [] => s
  | _ :: rest =>
    let s2 := { s with converter_threads := rest }
    if s.processing_all then
      match rest with
      | [] => s2
      | p :: _ => startThread p s2
    else s2

/-- Dispatch of one queued signal on the main loop:
`update_progress` touches only widgets; `conversion_complete` and
`conversion_error` both run the pop/advance handler. -/
def mainStep (s : AppState) : Option AppState :=
  match s.pending with
  | [] => none
  | pe :: rest =>
    let s1 := { s with pending := rest, ui := s.ui ++ [pe] }
    some (match pe.2 with
      | Event.progressUpdate _ _ => s1
      | Event.conversionComplete _ => handleTerminal s1
      | Event.conversionError _ => handleTerminal s1)

/-- Take one action from the worker thread at position `k` of
`threads`, returning the updated thread list plus the acting worker's
index and the action. -/
def threadStepAux :
    List (Nat × List TAct) → Nat →
      Option (List (Nat × List TAct) × Nat × TAct)
  | [], _ => none
  | (i, scr) :: rest, 0 =>
    match scr with
    | [] => none
    | a :: tl => some ((i, tl) :: rest, i, a)
  | t :: rest, k + 1 =>
    (threadStepAux rest k).map (fun r => (t :: r.1, r.2))

/-- Effect of one worker action on the application state: an emitted
signal joins the dispatch queue; spawn/exit of the external process
updates the set of live processes. -/
def applyAct (i : Nat) (a : TAct) (s : AppState) : AppState :=
  match a with
  | TAct.emit e => { s with pending := s.pending ++ [(i, e)] }
  | TAct.spawnProc => { s with procActive := s.procActive ++ [i] }
  | TAct.exitProc => { s with procActive := s.procActive.filter (fun j => j ≠ i) }

/-- One step of the worker at position `k`. -/
def threadStep (k : Nat) (s : AppState) : Option AppState :=
  (threadStepAux s.threads k).map (fun r =>
    applyAct r.2.1 r.2.2 { s with threads := r.1 })

/-- `VideoConverterApp.cancel_conversion` (lines 798-810): for every
thread in `self.converter_threads` that is running, `thread.terminate()`
then `thread.wait()` — this stops the worker *thread* (its script is
discarded), but nothing is ever called on the `subprocess.Popen`
object held inside `run()`, so the set of live external processes is
untouched; then `self.converter_threads = []`. -/
def cancel_conversion (s : AppState) : AppState :=
  let qids := s.converter_threads.map (fun p => p.1)
  { s with
    threads := s.threads.map (fun t =>
      if t.1 ∈ qids then (t.1, ([] : List TAct)) else t),
    converter_threads := [] }

/-- Scheduler labels: a step of the worker at position `k`, a signal
dispatch on the main loop, or the user's cancel action. -/
inductive Label where
  | tstep (k : Nat)
  | mstep
  | cancelAct
deriving DecidableEq

/-- One labelled transition (fails when not enabled). -/
def step : Label → AppState → Option AppState
  | Label.tstep k, s => threadStep k s
  | Label.mstep, s => mainStep s
  | Label.cancelAct, s => some (cancel_conversion s)

/-- Run a schedule of labels. -/
def exec : List Label → AppState → Option AppState
  | [], s => some s
  | l :: ls, s => (step l s).bind (exec ls)

/-- `VideoConverterApp.start_conversion` (lines 707-796): build one
converter per submitted file, in order, and start the first. -/
def start_conversion (processing_all : Bool) (jobs : List Job) : AppState :=
  let pairs := jobs.enum
  let base : AppState :=
    { converter_threads := pairs, processing_all := processing_all,
      threads := [], procActive := [], pending := [], ui := [], started := [] }
  match pairs with
  | [] => base
  | p :: _ => startThread p base

/-- Position of the first worker with a nonempty remaining script. -/
def firstBusy : List (Nat × List TAct) → Option Nat
  | [] => none
  | (_, []) :: rest => (firstBusy rest).map (fun k => k + 1)
  | (_, _ :: _) :: _ => some 0

/-- The canonical scheduler: dispatch queued signals first, else step
the first busy worker.  It never cancels. -/
def canonPick (s : AppState) : Option Label :=
  match s.pending with
  | _ :: _ => some Label.mstep
  | [] => (firstBusy s.threads).map Label.tstep

/-- Run the canonical scheduler for at most `n` steps (it stops at a
state with nothing to dispatch and no busy worker). -/
def canonExec : Nat → AppState → AppState
  | 0, s => s
  | n + 1, s =>
    match canonPick s with
    | none => s
    | some l =>
      match step l s with
      | none => s
      | some s2 => canonExec n s2

/-! ## Output-path construction (`start_conversion`, lines 762-777)

`os.path.splitext`, `os.path.basename` and `os.path.join` are modelled
by their CPython (posixpath) definitions. -/

/-- Python `str.rfind(c)`: index of the last occurrence, `-1` if none. -/
def pyRfindAux (c : Char) : List Char → Nat → Int → Int
  | [], _, best => best
  | x :: rest, k, best =>
    pyRfindAux c rest (k + 1) (if x = c then (k : Int) else best)

/-- Python `str.rfind(c)`. -/
def pyRfind (c : Char) (cs : List Char) : Int :=
  pyRfindAux c cs 0 (-1)

/-- `os.path.splitext` (CPython `genericpath._splitext` with `sep='/'`):
split at the last dot that lies after the last path separator, unless
every character between the separator and that dot is a dot (leading
dots of the basename never start an extension). -/
def splitext (p : String) : String × String :=
  let cs := p.data
  let sepIndex := pyRfind '/' cs
  let dotIndex := pyRfind '.' cs
  if sepIndex < dotIndex then
    let d := dotIndex.toNat
    let f := (sepIndex + 1).toNat
    if ((cs.drop f).take (d - f)).all (fun c => c = '.') then (p, "")
    else (⟨cs.take d⟩, ⟨cs.drop d⟩)
  else (p, "")

/-- `os.path.basename`: everything after the last `'/'`. -/
def basename (p : String) : String :=
  ⟨p.data.drop ((pyRfind '/' p.data) + 1).toNat⟩

/-- `os.path.join` for two components (posixpath). -/
def pathJoin (a b : String) : String :=
  if b.data.head? = some '/' then b
  else if a = "" ∨ a.data.getLast? = some '/' then a ++ b
  else a ++ "/" ++ b

/-- The output-path computation of `start_conversion` (lines 764-769):
with a chosen output directory, join it with the input's basename
re-extended; otherwise replace the input path's extension with the
selected format. -/
def outputFileFor (output_directory : Option String)
    (input_file selected_format : String) : String :=
  match output_directory with
  | some d =>
    pathJoin d ((splitext (basename input_file)).1 ++ "." ++ selected_format)
  | none => (splitext input_file).1 ++ "." ++ selected_format

/-! ## The spec's progress parser, for comparison -/

/-- The progress computation as the spec's §4.3 words it (second
definition, for the refinement comparison of the parser claims):
`percent = clamp(floor(currentSeconds/duration*100), 0, 99)` — with a
lower clamp at 0 — and the same eta rule.  Marker extraction is shared
with the code's parser, which the claims do not dispute. -/
def parseProgressSpec (line : String) (duration startTime now : ℚ) :
    Option (Int × ℚ) :=
  match parseMarker line with
  | none => none
  | some current =>
    if duration = 0 then none
    else
      let percent : Int := max 0 (min ⌊current / duration * 100⌋ 99)
      let elapsedWall := now - startTime
      let eta : ℚ :=
        if percent > 0 then elapsedWall * 100 / (percent : ℚ) - elapsedWall
        else 0
      some (percent, eta)

/-! ## Accounting used by the sequencer proofs -/

/-- Whether an event triggers the queue's pop/advance handler
(`conversion_complete` and `conversion_error` do; `progress_update`
does not). -/
def isPopEvent : Event → Bool
  | Event.progressUpdate _ _ => false
  | Event.conversionComplete _ => true
  | Event.conversionError _ => true

/-- Whether a script action is an emitted pop-triggering signal. -/
def isPopAct : TAct → Bool
  | TAct.emit e => isPopEvent e
  | TAct.spawnProc => false
  | TAct.exitProc => false

/-- Number of pop-triggering emits remaining in a script. -/
def popsIn (scr : List TAct) : Nat := (scr.filter isPopAct).length

/-- Number of pop-triggering signals already dispatched. -/
def dCount (s : AppState) : Nat :=
  (s.ui.filter (fun pe => isPopEvent pe.2)).length

/-- Number of pop-triggering signals queued but not yet dispatched. -/
def pendingPops (s : AppState) : Nat :=
  (s.pending.filter (fun pe => isPopEvent pe.2)).length

/-- Number of pop-triggering emits remaining in the started workers. -/
def threadPops (s : AppState) : Nat :=
  (s.threads.map (fun t => popsIn t.2)).sum

/-- A job whose run takes the NVENC-fallback branch of lines 47-50
(and hence emits an extra, non-terminal `conversion_error`). -/
def fallbackJob (j : Job) : Bool :=
  j.world.ffmpegInstalled && decide (0 < j.world.duration) &&
    j.cfg.use_nvenc && !(isNvencAvailable j.world.probeEnv).1

/-- Decreasing measure of the canonical execution. -/
def appMeasure (s : AppState) : Nat :=
  2 * ((s.threads.map (fun t => t.2.length)).sum) + s.pending.length +
    ((s.converter_threads.drop 1).map
      (fun p => 2 * (runScript p.2.cfg p.2.world).length + 1)).sum

/-- Total fuel sufficient to drive any submission to quiescence. -/
def fuelFor (jobs : List Job) : Nat :=
  (jobs.map (fun j => 2 * (runScript j.cfg j.world).length + 1)).sum

/-! ## Concrete sample jobs -/

/-- A probe environment whose encoder listing lacks `h264_nvenc`. -/
def probeNone : ProbeEnv :=
  { encodersStdout := "encoders: libx264 libx265", nvencTestReturncode := 1 }

/-- A probe environment where NVENC is listed and the synthetic test
succeeds. -/
def probeOk : ProbeEnv :=
  { encodersStdout := "V.. h264_nvenc NVIDIA NVENC H.264 encoder",
    nvencTestReturncode := 0 }

/-- A plain software job that succeeds. -/
def softJob : Job :=
  { cfg := { input_file := "a.avi", output_file := "a.mp4",
             preset := "medium", format := "mp4", use_nvenc := false },
    world := { ffmpegInstalled := true, duration := 120, probeEnv := probeNone,
               startTime := 0, outputLines := [], returncode := 0 } }

/-- A second plain software job that succeeds. -/
def softJob2 : Job :=
  { cfg := { input_file := "c.avi", output_file := "c.mp4",
             preset := "medium", format := "mp4", use_nvenc := false },
    world := { ffmpegInstalled := true, duration := 60, probeEnv := probeNone,
               startTime := 0, outputLines := [], returncode := 0 } }

/-- A job that requests NVENC while the probe reports it unavailable:
its run takes the fallback branch of lines 47-50 and then completes
with the software encoder. -/
def nvencJobUnavail : Job :=
  { cfg := { input_file := "b.avi", output_file := "b.mp4",
             preset := "medium", format := "mp4", use_nvenc := true },
    world := { ffmpegInstalled := true, duration := 100, probeEnv := probeNone,
               startTime := 0, outputLines := [], returncode := 0 } }

/-- A job run with NVENC available (the probe invocations succeed). -/
def nvencJobAvail : Job :=
  { cfg := { input_file := "d.avi", output_file := "d.mp4",
             preset := "medium", format := "mp4", use_nvenc := true },
    world := { ffmpegInstalled := true, duration := 90, probeEnv := probeOk,
               startTime := 0, outputLines := [], returncode := 0 } }

/-- An NVENC job whose process fails with a CUDA signature in the log. -/
def nvencJobCrash : Job :=
  { cfg := { input_file := "e.avi", output_file := "e.mp4",
             preset := "medium", format := "mp4", use_nvenc := true },
    world := { ffmpegInstalled := true, duration := 90, probeEnv := probeOk,
               startTime := 0,
               outputLines := [("CUDA driver initialization failed\n", 1)],
               returncode := 1 } }

/-- A plain software job whose run emits two progress samples whose
media-time markers move backwards. -/
def decreasingJob : Job :=
  { cfg := { input_file := "f.avi", output_file := "f.mp4",
             preset := "medium", format := "mp4", use_nvenc := false },
    world := { ffmpegInstalled := true, duration := 120, probeEnv := probeNone,
               startTime := 0,
               outputLines := [("frame= 1 time=00:01:00.00 x\n", 30),
                               ("frame= 2 time=00:00:30.00 x\n", 60)],
               returncode := 0 } }

/-- A plain software job that fails with exit code 1. -/
def failJob : Job :=
  { cfg := { input_file := "g.avi", output_file := "g.mp4",
             preset := "medium", format := "mp4", use_nvenc := false },
    world := { ffmpegInstalled := true, duration := 45, probeEnv := probeNone,
               startTime := 0, outputLines := [("g failed\n", 1)],
               returncode := 1 } }

/-- The sequencer invariant maintained along the canonical batch
execution of plain (non-fallback) jobs: the queue always holds exactly
the jobs whose pop-triggering terminal signal has not yet been
dispatched, numbered from the dispatch count; the started jobs are an
initial segment; and the started-but-undispatched terminal signals
(still in scripts or in the signal queue) number exactly one while jobs
remain. -/
structure BatchInv (jobs : List Job) (s : AppState) : Prop where
  pa : s.processing_all = true
  queue_eq : s.converter_threads = List.enumFrom (dCount s) (jobs.drop (dCount s))
  started_eq : s.started = List.range (min (dCount s + 1) jobs.length)
  pops_eq : threadPops s + pendingPops s + dCount s = min (dCount s + 1) jobs.length

/-! ## General lemmas about the parser -/

example : parseMarker "frame=  12 time=00:01:00.00 bitrate=x" = some 60 := by
  decide

example : parseProgress "frame= 12 time=00:01:00.00 bitrate=x" 120 0 30
    = some (50, 30) := by decide

lemma parseProgress_some_eq {line : String} {d st now : ℚ} {p : Int} {e : ℚ}
    (h : parseProgress line d st now = some (p, e)) :
    ∃ c, parseMarker line = some c ∧ d ≠ 0 ∧
      p = min (pyTrunc (c / d * 100)) 99 := by
  cases hm : parseMarker line with
  | none => simp [parseProgress, hm] at h
  | some c =>
    by_cases hd : d = 0
    · simp [parseProgress, hm, hd] at h
    · simp only [parseProgress, hm, if_neg hd] at h
      simp only [Option.some.injEq, Prod.mk.injEq] at h
      exact ⟨c, rfl, hd, h.1.symm⟩

lemma parseProgress_le {line : String} {d st now : ℚ} {p : Int} {e : ℚ}
    (h : parseProgress line d st now = some (p, e)) : p ≤ 99 := by
  obtain ⟨c, _, _, hp⟩ := parseProgress_some_eq h
  rw [hp]
  exact min_le_right _ _

lemma pyTrunc_nonneg {q : ℚ} (h : 0 ≤ q) : 0 ≤ pyTrunc q := by
  unfold pyTrunc
  rw [if_neg (not_lt.mpr h)]
  exact Int.le_floor.mpr (by simpa using h)

lemma pyTrunc_eq_floor {q : ℚ} (h : 0 ≤ q) : pyTrunc q = ⌊q⌋ := by
  unfold pyTrunc
  rw [if_neg (not_lt.mpr h)]

lemma pyTrunc_mono {a b : ℚ} (h : a ≤ b) : pyTrunc a ≤ pyTrunc b := by
  unfold pyTrunc
  by_cases ha : a < 0
  · by_cases hb : b < 0
    · rw [if_pos ha, if_pos hb]
      exact Int.ceil_le_ceil h
    · rw [if_pos ha, if_neg hb]
      refine le_trans (Int.ceil_le.mpr ?_) (Int.le_floor.mpr (by simpa using not_lt.mp hb))
      exact_mod_cast ha.le
  · rw [if_neg ha, if_neg (not_lt.mpr (le_trans (not_lt.mp ha) h))]
    exact Int.floor_le_floor h

lemma pyTrunc_div_mono {c1 c2 d : ℚ} (hc : c1 ≤ c2) (hd : 0 < d) :
    pyTrunc (c1 / d * 100) ≤ pyTrunc (c2 / d * 100) := by
  apply pyTrunc_mono
  have h1 : c1 / d ≤ c2 / d := by gcongr
  exact mul_le_mul_of_nonneg_right h1 (by norm_num)

lemma mem_lineEvents {d st : ℚ} {lines : List (String × ℚ)} {e : Event}
    (h : e ∈ lineEvents d st lines) :
    ∃ ln ∈ lines, ∃ p eta, parseProgress ln.1 d st ln.2 = some (p, eta) ∧
      e = Event.progressUpdate p eta := by
  unfold lineEvents at h
  obtain ⟨ln, hln, hmap⟩ := List.mem_filterMap.mp h
  cases hp : parseProgress ln.1 d st ln.2 with
  | none => rw [hp] at hmap; simp at hmap
  | some pe =>
    rw [hp] at hmap
    simp only [Option.map_some', Option.some.injEq] at hmap
    exact ⟨ln, hln, pe.1, pe.2, hp, hmap.symm⟩

/-! ## General lemmas about `FFmpegConverter.run` -/

lemma classifyExit_error (u : Bool) (t : String) (rc : Int) :
    ∃ msg, classifyExit u t rc = Event.conversionError msg := by
  unfold classifyExit
  split
  · exact ⟨_, rfl⟩
  · exact ⟨_, rfl⟩

lemma run_events_eq (cfg : ConverterCfg) (w : World)
    (hf : w.ffmpegInstalled = true) (hd : 0 < w.duration) :
    (FFmpegConverter.run cfg w).events =
      (if cfg.use_nvenc && !(isNvencAvailable w.probeEnv).1 then
          [Event.conversionError nvencFallbackMsg] else []) ++
        lineEvents w.duration w.startTime w.outputLines ++
        (if w.returncode = 0 then
          [Event.progressUpdate 100 0, Event.conversionComplete cfg.output_file]
        else
          [classifyExit (cfg.use_nvenc && (isNvencAvailable w.probeEnv).1)
            (fullOutput w.outputLines) w.returncode]) := by
  simp only [FFmpegConverter.run, hf, Bool.not_true, if_neg (not_le.mpr hd)]
  simp

lemma run_use_nvenc_eq (cfg : ConverterCfg) (w : World)
    (hf : w.ffmpegInstalled = true) (hd : 0 < w.duration) :
    (FFmpegConverter.run cfg w).use_nvenc =
      (cfg.use_nvenc && (isNvencAvailable w.probeEnv).1) := by
  simp only [FFmpegConverter.run, hf, Bool.not_true, if_neg (not_le.mpr hd)]
  simp

lemma run_invocations_eq (cfg : ConverterCfg) (w : World)
    (hf : w.ffmpegInstalled = true) (hd : 0 < w.duration) :
    (FFmpegConverter.run cfg w).invocations =
      [versionCmd, ffprobeDurationCmd cfg.input_file] ++
        (if cfg.use_nvenc then (isNvencAvailable w.probeEnv).2 else []) ++
        [buildCmd cfg.input_file cfg.output_file cfg.preset
          (cfg.use_nvenc && (isNvencAvailable w.probeEnv).1)] := by
  simp only [FFmpegConverter.run, hf, Bool.not_true, if_neg (not_le.mpr hd)]
  simp

lemma run_spawned_eq (cfg : ConverterCfg) (w : World)
    (hf : w.ffmpegInstalled = true) (hd : 0 < w.duration) :
    (FFmpegConverter.run cfg w).spawned = true := by
  simp only [FFmpegConverter.run, hf, Bool.not_true, if_neg (not_le.mpr hd)]
  simp

lemma encodersCmd_mem_probe (env : ProbeEnv) :
    encodersCmd ∈ (isNvencAvailable env).2 := by
  simp only [isNvencAvailable]
  split
  · simp
  · simp

/-! ## General lemmas about the output path -/

lemma string_mk_append (a b : List Char) : (⟨a⟩ : String) ++ ⟨b⟩ = ⟨a ++ b⟩ := rfl

lemma splitext_append (p : String) : (splitext p).1 ++ (splitext p).2 = p := by
  simp only [splitext]
  split
  · split
    · simp
    · show (⟨p.data.take _⟩ : String) ++ ⟨p.data.drop _⟩ = p
      rw [string_mk_append, List.take_append_drop]
  · simp

/-! ## Claim C1 -/

/-- C1, counterexample.  The claim says the fallback from an
unavailable hardware encoder is silent — "the caller observes no
failure event for that reason alone".  On a job requesting NVENC with
the probe reporting unavailable and an otherwise clean run, the run
emits `conversion_error` with the fallback message (line 49) before
completing: the caller does observe a failure event for exactly that
reason. -/
theorem C1_counterexample :
    (FFmpegConverter.run nvencJobUnavail.cfg nvencJobUnavail.world).events =
      [Event.conversionError nvencFallbackMsg, Event.progressUpdate 100 0,
       Event.conversionComplete "b.mp4"] ∧
    Event.conversionError nvencFallbackMsg ∈
      (FFmpegConverter.run nvencJobUnavail.cfg nvencJobUnavail.world).events := by
  decide

/-- C1, amended.  For every job requesting the hardware encoder whose
probe reports it unavailable, the run does fall back to the software
codec family for this job only (`self.use_nvenc` cleared, the spawned
command uses `libx264`) and proceeds to run — but not silently: a
`conversion_error` event carrying the fallback message is emitted. -/
theorem C1_amended_fallback_not_silent (cfg : ConverterCfg) (w : World)
    (hf : w.ffmpegInstalled = true) (hd : 0 < w.duration)
    (hreq : cfg.use_nvenc = true)
    (hav : (isNvencAvailable w.probeEnv).1 = false) :
    (FFmpegConverter.run cfg w).use_nvenc = false ∧
    (FFmpegConverter.run cfg w).spawned = true ∧
    buildCmd cfg.input_file cfg.output_file cfg.preset false ∈
      (FFmpegConverter.run cfg w).invocations ∧
    "libx264" ∈ buildCmd cfg.input_file cfg.output_file cfg.preset false ∧
    Event.conversionError nvencFallbackMsg ∈
      (FFmpegConverter.run cfg w).events := by
  refine ⟨?_, run_spawned_eq cfg w hf hd, ?_, ?_, ?_⟩
  · rw [run_use_nvenc_eq cfg w hf hd, hreq, hav]
    rfl
  · rw [run_invocations_eq cfg w hf hd, hreq, hav]
    simp
  · simp [buildCmd]
  · rw [run_events_eq cfg w hf hd, hreq, hav]
    simp

/-- C1, witness for the amended theorem at a concrete job. -/
theorem C1_amended_witness :
    (FFmpegConverter.run nvencJobUnavail.cfg nvencJobUnavail.world).use_nvenc = false ∧
    (FFmpegConverter.run nvencJobUnavail.cfg nvencJobUnavail.world).spawned = true ∧
    buildCmd nvencJobUnavail.cfg.input_file nvencJobUnavail.cfg.output_file
        nvencJobUnavail.cfg.preset false ∈
      (FFmpegConverter.run nvencJobUnavail.cfg nvencJobUnavail.world).invocations ∧
    "libx264" ∈ buildCmd nvencJobUnavail.cfg.input_file
        nvencJobUnavail.cfg.output_file nvencJobUnavail.cfg.preset false ∧
    Event.conversionError nvencFallbackMsg ∈
      (FFmpegConverter.run nvencJobUnavail.cfg nvencJobUnavail.world).events :=
  C1_amended_fallback_not_silent nvencJobUnavail.cfg nvencJobUnavail.world
    (by decide) (by decide) (by decide) (by decide)

/-! ## Claim C2 -/

/-- C2, code-bug evidence.  One job is started and its external process
spawned; the user cancels.  `cancel_conversion` terminates the worker
thread (`QThread.terminate`/`wait`, its script is discarded) and clears
the queue, but never touches the `subprocess.Popen` process: afterwards
the external process of job 0 is still alive (`procActive = [0]`), and
the system is quiescent (the canonical execution is stuck), so nothing
will ever terminate or reap it.  The claim requires cancellation to
terminate the external process and wait for it. -/
theorem C2_cancel_leaves_process_running :
    (exec [Label.tstep 0, Label.cancelAct] (start_conversion false [softJob])).map
        (fun s => s.procActive) = some [0] ∧
    (exec [Label.tstep 0, Label.cancelAct] (start_conversion false [softJob])).map
        (fun s => s.converter_threads) = some [] ∧
    (exec [Label.tstep 0, Label.cancelAct] (start_conversion false [softJob])).map
        (fun s => s.threads) = some [(0, [])] ∧
    (exec [Label.tstep 0, Label.cancelAct] (start_conversion false [softJob])).map
        (fun s => canonExec 100 s) =
      exec [Label.tstep 0, Label.cancelAct] (start_conversion false [softJob]) := by
  decide

/-! ## Claim C3 -/

/-- C3, code-bug evidence.  Batch mode with two jobs, the first
requesting NVENC while the probe reports it unavailable.  The first
worker emits the fallback `conversion_error` (line 49) and spawns its
process; the main loop dispatches that signal to `conversion_failed`,
which pops job 0 from the queue and — batch mode — starts job 1; job 1
spawns its process while job 0's process is still running.  The state
reached has `procActive = [0, 1]`: two jobs Running at once, and job 1
was started before job 0 reached a terminal state. -/
theorem C3_two_processes_active :
    (exec [Label.tstep 0, Label.tstep 0, Label.mstep, Label.tstep 1]
        (start_conversion true [nvencJobUnavail, softJob])).map
        (fun s => (s.procActive, s.started)) = some ([0, 1], [0, 1]) := by
  decide

/-! ## Claim C5 -/

/-- C5, counterexample.  The claim says the probe subprocess
invocations never run as part of starting a queued job.  Starting one
NVENC-requesting job runs the probe: the invocation trace of the job's
own `run()` contains the `ffmpeg -encoders` listing and the synthetic
NVENC test encode (lines 47-48 call `_is_nvenc_available()` on every
such job start). -/
theorem C5_counterexample :
    encodersCmd ∈ (FFmpegConverter.run nvencJobAvail.cfg nvencJobAvail.world).invocations ∧
    nvencTestCmd ∈ (FFmpegConverter.run nvencJobAvail.cfg nvencJobAvail.world).invocations := by
  decide

/-- C5, amended.  Every job start with the hardware encoder requested
re-probes availability (the probe's encoder-listing invocation runs as
part of the job's own `run()`); a job start without the hardware
request runs no probe invocation. -/
theorem C5_amended_probe_on_each_job_start (cfg : ConverterCfg) (w : World)
    (hf : w.ffmpegInstalled = true) (hd : 0 < w.duration) :
    (cfg.use_nvenc = true →
      encodersCmd ∈ (FFmpegConverter.run cfg w).invocations) ∧
    (cfg.use_nvenc = false →
      encodersCmd ∉ (FFmpegConverter.run cfg w).invocations ∧
      nvidiaSmiCmd ∉ (FFmpegConverter.run cfg w).invocations ∧
      nvencTestCmd ∉ (FFmpegConverter.run cfg w).invocations) := by
  rw [run_invocations_eq cfg w hf hd]
  constructor
  · intro h
    rw [h]
    have := encodersCmd_mem_probe w.probeEnv
    simp [this]
  · intro h
    rw [h]
    refine ⟨?_, ?_, ?_⟩ <;>
      simp [encodersCmd, nvidiaSmiCmd, nvencTestCmd, versionCmd,
        ffprobeDurationCmd, buildCmd]

/-- C5, witness for the amended theorem at a concrete job start. -/
theorem C5_amended_witness :
    encodersCmd ∈
      (FFmpegConverter.run nvencJobCrash.cfg nvencJobCrash.world).invocations :=
  (C5_amended_probe_on_each_job_start nvencJobCrash.cfg nvencJobCrash.world
    (by decide) (by decide)).1 rfl

/-! ## Claim C6 -/

/-- C6, counterexample.  The claim says percent is monotonically
non-decreasing within one run.  A run whose log reports media time
`00:01:00` and then `00:00:30` (duration 120) emits percent 50 followed
by percent 25: the code recomputes the percentage from each line and
never clamps against the previous value. -/
theorem C6_counterexample :
    (FFmpegConverter.run decreasingJob.cfg decreasingJob.world).events =
      [Event.progressUpdate 50 30, Event.progressUpdate 25 180,
       Event.progressUpdate 100 0, Event.conversionComplete "f.mp4"] ∧
    (25 : Int) < 50 := by
  decide

/-- C6, amended.  The per-line percent is a monotone function of the
parsed media-time marker (for the fixed positive duration), so the
emitted percents are non-decreasing exactly when the markers in the log
are non-decreasing; nothing in the code enforces monotonicity across
samples. -/
theorem C6_amended_monotone_markers (l1 l2 : String) (d st t1 t2 c1 c2 : ℚ)
    (p1 p2 : Int) (e1 e2 : ℚ)
    (hm1 : parseMarker l1 = some c1) (hm2 : parseMarker l2 = some c2)
    (hc : c1 ≤ c2) (hd : 0 < d)
    (h1 : parseProgress l1 d st t1 = some (p1, e1))
    (h2 : parseProgress l2 d st t2 = some (p2, e2)) :
    p1 ≤ p2 := by
  obtain ⟨c1', hm1', _, hp1⟩ := parseProgress_some_eq h1
  obtain ⟨c2', hm2', _, hp2⟩ := parseProgress_some_eq h2
  rw [hm1] at hm1'
  rw [hm2] at hm2'
  obtain rfl := Option.some.inj hm1'.symm
  obtain rfl := Option.some.inj hm2'.symm
  rw [hp1, hp2]
  exact min_le_min (pyTrunc_div_mono hc hd) le_rfl

/-- C6, witness for the amended theorem at concrete lines. -/
theorem C6_amended_witness : (25 : Int) ≤ 50 :=
  C6_amended_monotone_markers "time=00:00:30.0 x" "time=00:01:00.0 x"
    120 0 60 90 30 60 25 50 180 90
    (by decide) (by decide) (by decide) (by decide) (by decide) (by decide)

/-! ## Claim C7 -/

/-- C7, counterexample.  The claim states
`percent = clamp(floor(currentSeconds/duration*100), 0, 99)`, a lower
clamp at 0 included.  The code computes `min(int(...), 99)` with no
lower clamp: the parseable marker `-1:00:00.0` with duration 120 yields
the sample `(-3000, 0)`, a percent below 0. -/
theorem C7_counterexample :
    parseProgress "time=-1:00:00.0 x" 120 0 30 = some (-3000, 0) ∧
    (-3000 : Int) < 0 := by
  decide

/-- C7, amended.  The parser is the total function described by the
claim except that the percent has no lower clamp: (a) on any line whose
marker parses to a nonnegative media time (every well-formed
`h:m:s` marker) it agrees exactly with the spec's
`clamp(floor(currentSeconds/duration*100), 0, 99)` and eta rule;
(b) a line without a parseable marker yields no sample (and the
translation is a total function, so no exception escapes);
(c) on the claim's concrete instance — duration 120, marker
`00:01:00.00`, elapsed wall clock 30 — it yields `(50, 30)`. -/
theorem C7_amended_parser_behaviour :
    (∀ (line : String) (d st now c : ℚ),
      parseMarker line = some c → 0 ≤ c → 0 < d →
      parseProgress line d st now = parseProgressSpec line d st now) ∧
    (∀ (line : String) (d st now : ℚ),
      parseMarker line = none → parseProgress line d st now = none) ∧
    parseProgress "frame= 1 time=00:01:00.00 b" 120 0 30 = some (50, 30) := by
  refine ⟨?_, ?_, by decide⟩
  · intro line d st now c hm hc0 hd
    have hd0 : d ≠ 0 := ne_of_gt hd
    have hq : (0 : ℚ) ≤ c / d * 100 :=
      mul_nonneg (div_nonneg hc0 hd.le) (by norm_num)
    have hperc : min (pyTrunc (c / d * 100)) 99 =
        max 0 (min ⌊c / d * 100⌋ 99) := by
      rw [pyTrunc_eq_floor hq, max_eq_right]
      exact le_min (Int.le_floor.mpr (by simpa using hq)) (by norm_num)
    simp only [parseProgress, parseProgressSpec, hm, if_neg hd0]
    rw [hperc]
  · intro line d st now hm
    simp [parseProgress, hm]

/-- C7, witness: the refinement conjunct applied at a concrete line. -/
theorem C7_amended_witness :
    parseProgress "time=00:01:00.00" 120 0 30 =
      parseProgressSpec "time=00:01:00.00" 120 0 30 :=
  C7_amended_parser_behaviour.1 "time=00:01:00.00" 120 0 30 60
    (by decide) (by decide) (by decide)

/-! ## Claim C8 -/

/-- C8, counterexample.  The claim bounds every parsed sample's percent
between 0 and 99 inclusive.  The parseable marker `0:0:-12.0` with
duration 120 produces the sample `(-10, 0)`: below 0. -/
theorem C8_counterexample :
    parseProgress "time=0:0:-12.0 x" 120 0 10 = some (-10, 0) ∧
    (-10 : Int) < 0 := by
  decide

/-- C8, amended.  Every sample parsed from a log line has percent at
most 99 (so a parsed sample can never claim completion); percent is
additionally nonnegative whenever the line's marker parses to a
nonnegative media time; and the pair `(100, 0)` appears among the run's
events exactly when the process exits with code 0 — it is produced only
by the explicit completion path of lines 126-127. -/
theorem C8_amended_percent_bounds (cfg : ConverterCfg) (w : World)
    (hf : w.ffmpegInstalled = true) (hd : 0 < w.duration) :
    (∀ p e, Event.progressUpdate p e ∈
        lineEvents w.duration w.startTime w.outputLines → p ≤ 99) ∧
    ((∀ ln ∈ w.outputLines, ∀ c, parseMarker ln.1 = some c → 0 ≤ c) →
      ∀ p e, Event.progressUpdate p e ∈
        lineEvents w.duration w.startTime w.outputLines → 0 ≤ p) ∧
    (Event.progressUpdate 100 0 ∈ (FFmpegConverter.run cfg w).events ↔
      w.returncode = 0) := by
  refine ⟨?_, ?_, ?_⟩
  · intro p e hmem
    obtain ⟨ln, _, p', e', hp, heq⟩ := mem_lineEvents hmem
    simp only [Event.progressUpdate.injEq] at heq
    obtain ⟨rfl, rfl⟩ := heq
    exact parseProgress_le hp
  · intro hmk p e hmem
    obtain ⟨ln, hln, p', e', hp, heq⟩ := mem_lineEvents hmem
    simp only [Event.progressUpdate.injEq] at heq
    obtain ⟨rfl, rfl⟩ := heq
    obtain ⟨c, hm, hd0, hpeq⟩ := parseProgress_some_eq hp
    have hc0 : 0 ≤ c := hmk ln hln c hm
    rw [hpeq]
    refine le_min (pyTrunc_nonneg ?_) (by norm_num)
    exact mul_nonneg (div_nonneg hc0 hd.le) (by norm_num)
  · rw [run_events_eq cfg w hf hd]
    constructor
    · intro hmem
      rcases List.mem_append.mp hmem with hmem1 | hfin
      · rcases List.mem_append.mp hmem1 with hfb | hline
        · by_cases hc : (cfg.use_nvenc && !(isNvencAvailable w.probeEnv).1) = true
          · rw [if_pos hc] at hfb
            simp at hfb
          · rw [if_neg hc] at hfb
            simp at hfb
        · obtain ⟨ln, _, p, eta, hp, heq⟩ := mem_lineEvents hline
          have hple := parseProgress_le hp
          simp only [Event.progressUpdate.injEq] at heq
          obtain ⟨h100, h0⟩ := heq
          omega
      · by_cases hrc : w.returncode = 0
        · exact hrc
        · rw [if_neg hrc] at hfin
          obtain ⟨msg, hmsg⟩ := classifyExit_error
            (cfg.use_nvenc && (isNvencAvailable w.probeEnv).1)
            (fullOutput w.outputLines) w.returncode
          rw [hmsg] at hfin
          simp at hfin
    · intro hrc
      rw [if_pos hrc]
      simp

/-- C8, witness: the completion-path conjunct at a concrete run. -/
theorem C8_amended_witness :
    Event.progressUpdate 100 0 ∈
        (FFmpegConverter.run decreasingJob.cfg decreasingJob.world).events ↔
      decreasingJob.world.returncode = 0 :=
  (C8_amended_percent_bounds decreasingJob.cfg decreasingJob.world
    (by decide) (by decide)).2.2

/-! ## Claim C9 -/

/-- C9.  For every run whose process exits with a nonzero code, the
final emitted event is: the hardware-runtime error message when the job
actually ran with the hardware codec family (`self.use_nvenc` after the
possible fallback) and the captured log contains one of the known NVENC
failure signatures; otherwise the generic failure message carrying the
raw exit code. -/
theorem C9_failure_classification (cfg : ConverterCfg) (w : World)
    (hf : w.ffmpegInstalled = true) (hd : 0 < w.duration)
    (hrc : w.returncode ≠ 0) :
    (FFmpegConverter.run cfg w).events.getLast? =
      some (if (FFmpegConverter.run cfg w).use_nvenc &&
              nvencErrorSignatures.any
                (fun sig => containsSubstr (fullOutput w.outputLines) sig)
            then Event.conversionError nvencRuntimeMsg
            else Event.conversionError
              ("Conversion failed with error code " ++ toString w.returncode)) := by
  rw [run_events_eq cfg w hf hd, run_use_nvenc_eq cfg w hf hd, if_neg hrc]
  rw [List.append_assoc]
  rw [show ((if (cfg.use_nvenc && !(isNvencAvailable w.probeEnv).1) = true then
      [Event.conversionError nvencFallbackMsg] else []) ++
      (lineEvents w.duration w.startTime w.outputLines ++
        [classifyExit (cfg.use_nvenc && (isNvencAvailable w.probeEnv).1)
          (fullOutput w.outputLines) w.returncode])) =
    ((if (cfg.use_nvenc && !(isNvencAvailable w.probeEnv).1) = true then
      [Event.conversionError nvencFallbackMsg] else []) ++
      lineEvents w.duration w.startTime w.outputLines) ++
        [classifyExit (cfg.use_nvenc && (isNvencAvailable w.probeEnv).1)
          (fullOutput w.outputLines) w.returncode] from
    (List.append_assoc _ _ _).symm]
  rw [List.getLast?_concat]
  simp [classifyExit]

/-- C9, witness: a hardware run crashing with a CUDA signature is
classified as the NVENC runtime error. -/
theorem C9_witness :
    (FFmpegConverter.run nvencJobCrash.cfg nvencJobCrash.world).events.getLast? =
      some (if (FFmpegConverter.run nvencJobCrash.cfg nvencJobCrash.world).use_nvenc &&
              nvencErrorSignatures.any
                (fun sig => containsSubstr
                  (fullOutput nvencJobCrash.world.outputLines) sig)
            then Event.conversionError nvencRuntimeMsg
            else Event.conversionError
              ("Conversion failed with error code " ++
                toString nvencJobCrash.world.returncode)) :=
  C9_failure_classification nvencJobCrash.cfg nvencJobCrash.world
    (by decide) (by decide) (by decide)

/-! ## Claim C10 -/

/-- C10.  With no output directory chosen, the output path is the input
path with its extension replaced by the selected format; when the
input's extension already equals the selected format the output path
equals the input path; and the command always carries the `-y`
overwrite flag, so the conversion targets its own input file. -/
theorem C10_output_path_overwrites_input
    (input_file selected_format preset : String) (nv : Bool)
    (hext : (splitext input_file).2 = "." ++ selected_format) :
    outputFileFor none input_file selected_format =
        (splitext input_file).1 ++ "." ++ selected_format ∧
    outputFileFor none input_file selected_format = input_file ∧
    "-y" ∈ buildCmd input_file
      (outputFileFor none input_file selected_format) preset nv := by
  refine ⟨rfl, ?_, ?_⟩
  · show (splitext input_file).1 ++ "." ++ selected_format = input_file
    calc (splitext input_file).1 ++ "." ++ selected_format
        = (splitext input_file).1 ++ ("." ++ selected_format) := by
          rw [String.append_assoc]
      _ = (splitext input_file).1 ++ (splitext input_file).2 := by rw [hext]
      _ = input_file := splitext_append input_file
  · cases nv <;> simp [buildCmd]

/-- C10, witness: converting `video.mp4` to format `mp4` with no output
directory targets `video.mp4` itself, with `-y` passed. -/
theorem C10_witness :
    outputFileFor none "video.mp4" "mp4" = (splitext "video.mp4").1 ++ "." ++ "mp4" ∧
    outputFileFor none "video.mp4" "mp4" = "video.mp4" ∧
    "-y" ∈ buildCmd "video.mp4" (outputFileFor none "video.mp4" "mp4") "medium" false :=
  C10_output_path_overwrites_input "video.mp4" "mp4" "medium" false (by decide)

/-! ## Claim C4: sequencer lemmas -/

lemma popsIn_append (a b : List TAct) : popsIn (a ++ b) = popsIn a + popsIn b := by
  simp [popsIn, List.filter_append]

lemma popsIn_map_emit_eq_zero {es : List Event}
    (h : ∀ e ∈ es, isPopEvent e = false) : popsIn (es.map TAct.emit) = 0 := by
  unfold popsIn
  rw [List.filter_map]
  rw [List.filter_eq_nil_iff.mpr]
  · simp
  · intro e he
    simp only [Function.comp_apply, isPopAct]
    simp [h e he]

lemma lineEvents_not_pop {d st : ℚ} {lines : List (String × ℚ)} :
    ∀ e ∈ lineEvents d st lines, isPopEvent e = false := by
  intro e he
  obtain ⟨ln, _, p, eta, _, rfl⟩ := mem_lineEvents he
  rfl

lemma popsIn_runScript {j : Job} (h : fallbackJob j = false) :
    popsIn (runScript j.cfg j.world) = 1 := by
  unfold runScript
  by_cases hfi : j.world.ffmpegInstalled = true
  · by_cases hdur : j.world.duration ≤ 0
    · simp [hfi, if_pos hdur, popsIn, isPopAct, isPopEvent]
    · have hd : 0 < j.world.duration := not_le.mp hdur
      have hfb : (j.cfg.use_nvenc && !(isNvencAvailable j.world.probeEnv).1) = false := by
        unfold fallbackJob at h
        rw [hfi, decide_eq_true hd] at h
        simpa using h
      simp only [hfi, Bool.not_true, if_neg hdur]
      simp only [if_false, Bool.false_eq_true]
      rw [hfb]
      simp only [if_false, Bool.false_eq_true, List.map_nil, List.nil_append]
      rw [popsIn_append, popsIn_append, popsIn_append]
      rw [popsIn_map_emit_eq_zero lineEvents_not_pop]
      by_cases hrc : j.world.returncode = 0
      · rw [if_pos hrc]
        simp [popsIn, isPopAct, isPopEvent]
      · rw [if_neg hrc]
        obtain ⟨msg, hmsg⟩ := classifyExit_error
          (j.cfg.use_nvenc && (isNvencAvailable j.world.probeEnv).1)
          (fullOutput j.world.outputLines) j.world.returncode
        rw [hmsg]
        simp [popsIn, isPopAct, isPopEvent]
  · have hfi2 : j.world.ffmpegInstalled = false := by
      cases hb : j.world.ffmpegInstalled
      · rfl
      · exact absurd hb hfi
    simp [hfi2, popsIn, isPopAct, isPopEvent]

lemma map_sum_decomp {α : Type} (f : α → Nat) (pre post : List α) (x : α) :
    ((pre ++ x :: post).map f).sum = (pre.map f).sum + f x + (post.map f).sum := by
  simp only [List.map_append, List.sum_append, List.map_cons, List.sum_cons]
  omega

lemma popsIn_cons (a : TAct) (tl : List TAct) :
    popsIn (a :: tl) = (if isPopAct a then 1 else 0) + popsIn tl := by
  simp only [popsIn, List.filter_cons]
  split
  · simp [Nat.add_comm]
  · simp

lemma threadStepAux_eq_some :
    ∀ (ts : List (Nat × List TAct)) (k : Nat)
      (r : List (Nat × List TAct) × Nat × TAct),
      threadStepAux ts k = some r →
      ∃ pre i a tl post, ts = pre ++ (i, a :: tl) :: post ∧
        r.1 = pre ++ (i, tl) :: post ∧ r.2 = (i, a)
  | [], k, r => by
    intro h
    simp [threadStepAux] at h
  | (i, scr) :: rest, 0, r => by
    intro h
    cases scr with
    | nil => simp [threadStepAux] at h
    | cons a tl =>
      simp only [threadStepAux, Option.some.injEq] at h
      exact ⟨[], i, a, tl, rest, rfl, by rw [← h]; rfl, by rw [← h]⟩
  | t :: rest, k + 1, r => by
    intro h
    simp only [threadStepAux] at h
    cases haux : threadStepAux rest k with
    | none => rw [haux] at h; simp at h
    | some r2 =>
      rw [haux] at h
      simp only [Option.map_some', Option.some.injEq] at h
      obtain ⟨pre, i, a, tl, post, hts, h1, h2⟩ :=
        threadStepAux_eq_some rest k r2 haux
      refine ⟨t :: pre, i, a, tl, post, by rw [hts]; rfl, ?_, ?_⟩
      · rw [← h]
        simp [h1]
      · rw [← h]
        exact h2

lemma firstBusy_none_nil :
    ∀ ts : List (Nat × List TAct), firstBusy ts = none → ∀ t ∈ ts, t.2 = []
  | [], _, t, ht => by simp at ht
  | (i, []) :: rest, h, t, ht => by
    simp only [firstBusy] at h
    cases haux : firstBusy rest with
    | none =>
      rcases List.mem_cons.mp ht with rfl | hmem
      · rfl
      · exact firstBusy_none_nil rest haux t hmem
    | some k =>
      rw [haux] at h
      simp at h
  | (i, a :: tl) :: rest, h, t, ht => by simp [firstBusy] at h

lemma firstBusy_all_nil :
    ∀ ts : List (Nat × List TAct), (∀ t ∈ ts, t.2 = []) → firstBusy ts = none
  | [], _ => rfl
  | (i, scr) :: rest, h => by
    have h0 : scr = [] := h (i, scr) (List.mem_cons_self _ _)
    subst h0
    simp only [firstBusy]
    rw [firstBusy_all_nil rest (fun t ht => h t (List.mem_cons_of_mem _ ht))]
    rfl

lemma firstBusy_some_step :
    ∀ (ts : List (Nat × List TAct)) (k : Nat), firstBusy ts = some k →
      ∃ r, threadStepAux ts k = some r
  | [], k, h => by simp [firstBusy] at h
  | (i, []) :: rest, k, h => by
    simp only [firstBusy] at h
    cases haux : firstBusy rest with
    | none =>
      rw [haux] at h
      simp at h
    | some k2 =>
      rw [haux] at h
      simp only [Option.map_some', Option.some.injEq] at h
      obtain ⟨r, hr⟩ := firstBusy_some_step rest k2 haux
      refine ⟨((i, ([] : List TAct)) :: r.1, r.2), ?_⟩
      rw [← h]
      simp [threadStepAux, hr]
  | (i, a :: tl) :: rest, k, h => by
    simp only [firstBusy, Option.some.injEq] at h
    rw [← h]
    exact ⟨((i, tl) :: rest, i, a), rfl⟩

lemma threadStep_facts {k : Nat} {s s2 : AppState} (h : threadStep k s = some s2) :
    appMeasure s2 < appMeasure s ∧
    s2.converter_threads = s.converter_threads ∧
    s2.processing_all = s.processing_all ∧
    s2.started = s.started ∧
    s2.ui = s.ui ∧
    threadPops s2 + pendingPops s2 = threadPops s + pendingPops s := by
  unfold threadStep at h
  cases haux : threadStepAux s.threads k with
  | none =>
    rw [haux] at h
    simp at h
  | some r =>
    rw [haux] at h
    simp only [Option.map_some', Option.some.injEq] at h
    obtain ⟨pre, i, a, tl, post, hts, h1, h2⟩ := threadStepAux_eq_some _ _ _ haux
    subst h
    rw [h1, h2]
    cases a with
    | emit e =>
      refine ⟨?_, rfl, rfl, rfl, rfl, ?_⟩
      · simp only [applyAct, appMeasure]
        rw [hts, map_sum_decomp, map_sum_decomp,
          List.length_append, List.length_cons]
        simp only [List.length_cons, List.length_nil]
        omega
      · simp only [applyAct, threadPops, pendingPops, List.filter_append,
          List.length_append]
        rw [hts, map_sum_decomp, map_sum_decomp]
        simp only [popsIn_cons]
        have hpa : isPopAct (TAct.emit e) = isPopEvent e := rfl
        rw [hpa]
        by_cases hpop : isPopEvent e = true
        · simp [List.filter_cons, hpop]
          omega
        · simp [List.filter_cons, hpop]
    | spawnProc =>
      refine ⟨?_, rfl, rfl, rfl, rfl, ?_⟩
      · simp only [applyAct, appMeasure]
        rw [hts, map_sum_decomp, map_sum_decomp]
        simp only [List.length_cons]
        omega
      · simp only [applyAct, threadPops, pendingPops]
        rw [hts, map_sum_decomp, map_sum_decomp]
        simp only [popsIn_cons]
        have hpa : isPopAct TAct.spawnProc = false := rfl
        rw [hpa]
        simp
    | exitProc =>
      refine ⟨?_, rfl, rfl, rfl, rfl, ?_⟩
      · simp only [applyAct, appMeasure]
        rw [hts, map_sum_decomp, map_sum_decomp]
        simp only [List.length_cons]
        omega
      · simp only [applyAct, threadPops, pendingPops]
        rw [hts, map_sum_decomp, map_sum_decomp]
        simp only [popsIn_cons]
        have hpa : isPopAct TAct.exitProc = false := rfl
        rw [hpa]
        simp

lemma handleTerminal_le (s : AppState) :
    appMeasure (handleTerminal s) ≤ appMeasure s := by
  unfold handleTerminal
  cases hq : s.converter_threads with
  | nil => exact le_refl _
  | cons q0 rest2 =>
    by_cases hpa : s.processing_all = true
    · cases rest2 with
      | nil =>
        simp only [hpa, if_true, appMeasure, hq, List.drop_succ_cons, List.drop_zero,
          List.drop_nil, List.map_nil, List.sum_nil]
        omega
      | cons q1 qs =>
        simp only [hpa, if_true, startThread, appMeasure, hq, List.map_append,
          List.sum_append, List.map_cons, List.sum_cons, List.map_nil, List.sum_nil,
          List.drop_succ_cons, List.drop_zero]
        omega
    · simp only [Bool.not_eq_true] at hpa
      cases rest2 with
      | nil =>
        simp only [hpa, Bool.false_eq_true, if_false, appMeasure, hq,
          List.drop_succ_cons, List.drop_zero, List.drop_nil, List.map_nil,
          List.sum_nil]
        omega
      | cons q1 qs =>
        simp only [hpa, Bool.false_eq_true, if_false, appMeasure, hq,
          List.drop_succ_cons, List.drop_zero, List.map_cons, List.sum_cons]
        omega

lemma mainStep_lt {s s2 : AppState} (h : mainStep s = some s2) :
    appMeasure s2 < appMeasure s := by
  unfold mainStep at h
  cases hp : s.pending with
  | nil =>
    rw [hp] at h
    simp at h
  | cons pe rest =>
    rw [hp] at h
    simp only [Option.some.injEq] at h
    have hm1 : appMeasure { s with pending := rest, ui := s.ui ++ [pe] } <
        appMeasure s := by
      simp only [appMeasure, hp, List.length_cons]
      omega
    cases he : pe.2 with
    | progressUpdate p eta =>
      rw [he] at h
      rw [← h]
      exact hm1
    | conversionComplete o =>
      rw [he] at h
      rw [← h]
      exact lt_of_le_of_lt (handleTerminal_le _) hm1
    | conversionError m =>
      rw [he] at h
      rw [← h]
      exact lt_of_le_of_lt (handleTerminal_le _) hm1

lemma canonPick_step {s : AppState} {l : Label} (hp : canonPick s = some l) :
    ∃ s2, step l s = some s2 ∧ appMeasure s2 < appMeasure s := by
  unfold canonPick at hp
  cases hpend : s.pending with
  | cons pe rest =>
    rw [hpend] at hp
    simp only [Option.some.injEq] at hp
    subst hp
    have hms : ∃ s2, mainStep s = some s2 := by
      unfold mainStep
      rw [hpend]
      exact ⟨_, rfl⟩
    obtain ⟨s2, h2⟩ := hms
    exact ⟨s2, h2, mainStep_lt h2⟩
  | nil =>
    rw [hpend] at hp
    cases hfb : firstBusy s.threads with
    | none =>
      rw [hfb] at hp
      simp at hp
    | some k =>
      rw [hfb] at hp
      simp only [Option.map_some', Option.some.injEq] at hp
      subst hp
      obtain ⟨r, hr⟩ := firstBusy_some_step _ _ hfb
      have hts : threadStep k s =
          some (applyAct r.2.1 r.2.2 { s with threads := r.1 }) := by
        unfold threadStep
        rw [hr]
        rfl
      exact ⟨_, hts, (threadStep_facts hts).1⟩

lemma canonPick_none_of_measure_eq_zero {s : AppState} (h : appMeasure s = 0) :
    canonPick s = none := by
  unfold appMeasure at h
  have hpend : s.pending = [] := List.length_eq_zero.mp (by omega)
  have hsum : ((s.threads.map (fun t => t.2.length)).sum) = 0 := by omega
  have hnil : ∀ t ∈ s.threads, t.2 = [] := by
    intro t ht
    have hmem : t.2.length ∈ s.threads.map (fun t => t.2.length) :=
      List.mem_map_of_mem _ ht
    exact List.length_eq_zero.mp ((List.sum_eq_zero_iff.mp hsum) _ hmem)
  have hfb : firstBusy s.threads = none := firstBusy_all_nil _ hnil
  unfold canonPick
  rw [hpend, hfb]
  rfl

lemma canonExec_stuck : ∀ (n : Nat) (s : AppState), appMeasure s ≤ n →
    canonPick (canonExec n s) = none
  | 0, s, h => by
    have h0 : appMeasure s = 0 := Nat.le_zero.mp h
    simpa [canonExec] using canonPick_none_of_measure_eq_zero h0
  | n + 1, s, h => by
    cases hp : canonPick s with
    | none => simp [canonExec, hp]
    | some l =>
      obtain ⟨s2, hstep, hlt⟩ := canonPick_step hp
      have heq : canonExec (n + 1) s = canonExec n s2 := by
        simp [canonExec, hp, hstep]
      rw [heq]
      exact canonExec_stuck n s2 (by omega)

lemma canonExec_preserves (P : AppState → Prop)
    (hstep : ∀ s l s2, canonPick s = some l → step l s = some s2 → P s → P s2) :
    ∀ (n : Nat) (s : AppState), P s → P (canonExec n s)
  | 0, s, h => h
  | n + 1, s, h => by
    cases hp : canonPick s with
    | none => simpa [canonExec, hp]
    | some l =>
      cases hs : step l s with
      | none => simpa [canonExec, hp, hs]
      | some s2 =>
        have heq : canonExec (n + 1) s = canonExec n s2 := by
          simp [canonExec, hp, hs]
        rw [heq]
        exact canonExec_preserves P hstep n s2 (hstep s l s2 hp hs h)

lemma start_conversion_nil (b : Bool) :
    start_conversion b [] =
      { converter_threads := [], processing_all := b, threads := [],
        procActive := [], pending := [], ui := [], started := [] } := rfl

lemma start_conversion_cons (b : Bool) (j : Job) (rest : List Job) :
    start_conversion b (j :: rest) =
      { converter_threads := List.enumFrom 0 (j :: rest), processing_all := b,
        threads := [(0, runScript j.cfg j.world)], procActive := [],
        pending := [], ui := [], started := [0] } := rfl

lemma batchInv_init (jobs : List Job)
    (hplain : ∀ j ∈ jobs, fallbackJob j = false) :
    BatchInv jobs (start_conversion true jobs) := by
  cases jobs with
  | nil =>
    rw [start_conversion_nil]
    exact ⟨rfl, rfl, by decide, by decide⟩
  | cons j rest =>
    rw [start_conversion_cons]
    refine ⟨rfl, rfl, ?_, ?_⟩
    · show [0] = List.range (min (0 + 1) (j :: rest).length)
      rw [List.length_cons]
      have hmin : min (0 + 1) (rest.length + 1) = 1 := by omega
      rw [hmin]
      rfl
    · have h1 : popsIn (runScript j.cfg j.world) = 1 :=
        popsIn_runScript (hplain j (List.mem_cons_self _ _))
      show (threadPops _) + (pendingPops _) + (dCount _) = _
      simp only [threadPops, pendingPops, dCount, List.map_cons, List.map_nil,
        List.sum_cons, List.sum_nil, List.filter_nil, List.length_nil,
        List.length_cons, h1]
      omega

lemma handleTerminal_cons_true {s : AppState} {q0 q1 : Nat × Job}
    {qs : List (Nat × Job)}
    (hq : s.converter_threads = q0 :: q1 :: qs) (hpa : s.processing_all = true) :
    handleTerminal s = startThread q1 { s with converter_threads := q1 :: qs } := by
  unfold handleTerminal
  rw [hq]
  simp [hpa]

lemma handleTerminal_cons_last {s : AppState} {q0 : Nat × Job}
    (hq : s.converter_threads = [q0]) :
    handleTerminal s = { s with converter_threads := [] } := by
  unfold handleTerminal
  rw [hq]
  by_cases hpa : s.processing_all = true
  · simp [hpa]
  · simp only [Bool.not_eq_true] at hpa
    simp [hpa]

lemma filter_pop_snoc (l : List (Nat × Event)) (pe : Nat × Event) :
    ((l ++ [pe]).filter (fun q => isPopEvent q.2)).length =
      (l.filter (fun q => isPopEvent q.2)).length +
        (if isPopEvent pe.2 then 1 else 0) := by
  rw [List.filter_append, List.length_append]
  congr 1
  rw [List.filter_cons]
  split <;> simp

lemma batchInv_pop_dispatch {jobs : List Job}
    (hplain : ∀ j ∈ jobs, fallbackJob j = false) {s : AppState}
    {pe : Nat × Event} {rest : List (Nat × Event)}
    (hpend : s.pending = pe :: rest) (hpop : isPopEvent pe.2 = true)
    (hinv : BatchInv jobs s) :
    BatchInv jobs (handleTerminal { s with pending := rest, ui := s.ui ++ [pe] }) := by
  set s1 : AppState := { s with pending := rest, ui := s.ui ++ [pe] } with hs1
  have hdc1 : dCount s1 = dCount s + 1 := by
    show ((s.ui ++ [pe]).filter (fun q => isPopEvent q.2)).length = dCount s + 1
    rw [filter_pop_snoc]
    simp [hpop, dCount]
  have hpp1 : pendingPops s = pendingPops s1 + 1 := by
    unfold pendingPops
    rw [hpend]
    show (List.filter _ (pe :: rest)).length = (List.filter _ rest).length + 1
    rw [List.filter_cons]
    simp [hpop, Nat.add_comm]
  have htp1 : threadPops s1 = threadPops s := rfl
  have hdlt : dCount s < jobs.length := by
    have hpe := hinv.pops_eq
    omega
  have hdrop : jobs.drop (dCount s) =
      jobs.get ⟨dCount s, hdlt⟩ :: jobs.drop (dCount s + 1) :=
    List.drop_eq_getElem_cons hdlt
  have hq1 : s1.converter_threads =
      (dCount s, jobs.get ⟨dCount s, hdlt⟩) ::
        List.enumFrom (dCount s + 1) (jobs.drop (dCount s + 1)) := by
    show s.converter_threads = _
    rw [hinv.queue_eq, hdrop]
    rfl
  cases hdrop2 : jobs.drop (dCount s + 1) with
  | nil =>
    have hq2 : s1.converter_threads = [(dCount s, jobs.get ⟨dCount s, hdlt⟩)] := by
      rw [hq1, hdrop2]
      rfl
    rw [handleTerminal_cons_last hq2]
    have hlen : jobs.length ≤ dCount s + 1 := List.drop_eq_nil_iff.mp hdrop2
    have hdc2 : dCount { s1 with converter_threads := [] } = dCount s + 1 := hdc1
    have htp2 : threadPops { s1 with converter_threads := [] } = threadPops s := htp1
    have hpp2 : pendingPops { s1 with converter_threads := [] } = pendingPops s1 := rfl
    refine ⟨hinv.pa, ?_, ?_, ?_⟩
    · show ([] : List (Nat × Job)) = List.enumFrom (dCount _) (jobs.drop (dCount _))
      rw [hdc2, hdrop2]
      rfl
    · show s.started = List.range (min (dCount _ + 1) jobs.length)
      rw [hdc2, hinv.started_eq]
      congr 1
      omega
    · show threadPops _ + pendingPops _ + dCount _ = _
      rw [hdc2, htp2, hpp2]
      have hpe := hinv.pops_eq
      omega
  | cons jd1 rest3 =>
    have hq2 : s1.converter_threads =
        (dCount s, jobs.get ⟨dCount s, hdlt⟩) ::
          (dCount s + 1, jd1) :: List.enumFrom (dCount s + 2) rest3 := by
      rw [hq1, hdrop2]
      rfl
    have hlen2 : dCount s + 1 < jobs.length := by
      by_contra hcon
      have hnil2 : jobs.drop (dCount s + 1) = [] :=
        List.drop_eq_nil_iff.mpr (by omega)
      rw [hnil2] at hdrop2
      exact List.noConfusion hdrop2
    have hmem : jd1 ∈ jobs := by
      apply List.mem_of_mem_drop (n := dCount s + 1)
      rw [hdrop2]
      exact List.mem_cons_self _ _
    have hpa1 : s1.processing_all = true := hinv.pa
    rw [handleTerminal_cons_true hq2 hpa1]
    have hdc2 : dCount (startThread (dCount s + 1, jd1)
        { s1 with converter_threads := (dCount s + 1, jd1) ::
          List.enumFrom (dCount s + 2) rest3 }) = dCount s + 1 := hdc1
    have hpp2 : pendingPops (startThread (dCount s + 1, jd1)
        { s1 with converter_threads := (dCount s + 1, jd1) ::
          List.enumFrom (dCount s + 2) rest3 }) = pendingPops s1 := rfl
    have hpops1 : popsIn (runScript jd1.cfg jd1.world) = 1 :=
      popsIn_runScript (hplain jd1 hmem)
    have htp2 : threadPops (startThread (dCount s + 1, jd1)
        { s1 with converter_threads := (dCount s + 1, jd1) ::
          List.enumFrom (dCount s + 2) rest3 }) = threadPops s + 1 := by
      show ((s.threads ++ [(dCount s + 1, runScript jd1.cfg jd1.world)]).map
        (fun t => popsIn t.2)).sum = _
      rw [map_sum_decomp (fun t => popsIn t.2) s.threads []
        (dCount s + 1, runScript jd1.cfg jd1.world)]
      simp only [List.map_nil, List.sum_nil, hpops1]
      show threadPops s + 1 + 0 = threadPops s + 1
      omega
    refine ⟨hinv.pa, ?_, ?_, ?_⟩
    · show (dCount s + 1, jd1) :: List.enumFrom (dCount s + 2) rest3 =
        List.enumFrom (dCount _) (jobs.drop (dCount _))
      rw [hdc2, hdrop2]
      rfl
    · show s.started ++ [dCount s + 1] = List.range (min (dCount _ + 1) jobs.length)
      rw [hdc2, hinv.started_eq]
      have hm1 : min (dCount s + 1) jobs.length = dCount s + 1 := by omega
      have hm2 : min (dCount s + 1 + 1) jobs.length = dCount s + 2 := by omega
      rw [hm1, hm2]
      rw [← List.range_succ]
    · show threadPops _ + pendingPops _ + dCount _ = _
      rw [hdc2, htp2, hpp2]
      have hpe := hinv.pops_eq
      omega

lemma batchInv_nonpop_dispatch {jobs : List Job} {s : AppState}
    {pe : Nat × Event} {rest : List (Nat × Event)}
    (hpend : s.pending = pe :: rest) (hpop : isPopEvent pe.2 = false)
    (hinv : BatchInv jobs s) :
    BatchInv jobs { s with pending := rest, ui := s.ui ++ [pe] } := by
  have hdc1 : dCount { s with pending := rest, ui := s.ui ++ [pe] } = dCount s := by
    show ((s.ui ++ [pe]).filter (fun q => isPopEvent q.2)).length = dCount s
    rw [filter_pop_snoc]
    simp [hpop, dCount]
  have hpp1 : pendingPops { s with pending := rest, ui := s.ui ++ [pe] } =
      pendingPops s := by
    unfold pendingPops
    rw [hpend]
    show (List.filter _ rest).length = (List.filter _ (pe :: rest)).length
    rw [List.filter_cons]
    simp [hpop]
  refine ⟨hinv.pa, ?_, ?_, ?_⟩
  · show s.converter_threads = List.enumFrom (dCount _) (jobs.drop (dCount _))
    rw [hdc1]
    exact hinv.queue_eq
  · show s.started = List.range (min (dCount _ + 1) jobs.length)
    rw [hdc1]
    exact hinv.started_eq
  · show threadPops _ + pendingPops _ + dCount _ = min (dCount _ + 1) jobs.length
    rw [hdc1, hpp1]
    have htp1 : threadPops { s with pending := rest, ui := s.ui ++ [pe] } =
        threadPops s := rfl
    rw [htp1]
    exact hinv.pops_eq

lemma batchInv_step {jobs : List Job}
    (hplain : ∀ j ∈ jobs, fallbackJob j = false)
    {s s2 : AppState} {l : Label}
    (hp : canonPick s = some l) (hstep : step l s = some s2)
    (hinv : BatchInv jobs s) : BatchInv jobs s2 := by
  unfold canonPick at hp
  cases hpend : s.pending with
  | nil =>
    rw [hpend] at hp
    cases hfb : firstBusy s.threads with
    | none =>
      rw [hfb] at hp
      simp at hp
    | some k =>
      rw [hfb] at hp
      simp only [Option.map_some', Option.some.injEq] at hp
      subst hp
      have hts : threadStep k s = some s2 := hstep
      obtain ⟨-, hq, hpa2, hst, hui, hpops⟩ := threadStep_facts hts
      have hdc : dCount s2 = dCount s := by
        unfold dCount
        rw [hui]
      refine ⟨by rw [hpa2]; exact hinv.pa, ?_, ?_, ?_⟩
      · rw [hq, hdc]
        exact hinv.queue_eq
      · rw [hst, hdc]
        exact hinv.started_eq
      · rw [hdc]
        have hpe := hinv.pops_eq
        omega
  | cons pe rest =>
    rw [hpend] at hp
    simp only [Option.some.injEq] at hp
    subst hp
    have hms : mainStep s = some s2 := hstep
    unfold mainStep at hms
    rw [hpend] at hms
    simp only [Option.some.injEq] at hms
    cases he : pe.2 with
    | progressUpdate p eta =>
      rw [he] at hms
      rw [← hms]
      exact batchInv_nonpop_dispatch hpend (by rw [he]; rfl) hinv
    | conversionComplete o =>
      rw [he] at hms
      rw [← hms]
      exact batchInv_pop_dispatch hplain hpend (by rw [he]; rfl) hinv
    | conversionError m =>
      rw [he] at hms
      rw [← hms]
      exact batchInv_pop_dispatch hplain hpend (by rw [he]; rfl) hinv

lemma batchInv_final {jobs : List Job} {s : AppState}
    (hinv : BatchInv jobs s) (hstuck : canonPick s = none) :
    s.started = List.range jobs.length ∧ s.pending = [] ∧
      ∀ t ∈ s.threads, t.2 = [] := by
  unfold canonPick at hstuck
  cases hpend : s.pending with
  | cons pe rest =>
    rw [hpend] at hstuck
    simp at hstuck
  | nil =>
    rw [hpend] at hstuck
    have hfb : firstBusy s.threads = none := by
      cases hfb2 : firstBusy s.threads with
      | none => rfl
      | some k =>
        rw [hfb2] at hstuck
        simp at hstuck
    have hnil := firstBusy_none_nil _ hfb
    have hT : threadPops s = 0 := by
      unfold threadPops
      apply List.sum_eq_zero
      intro x hx
      obtain ⟨t, ht, rfl⟩ := List.mem_map.mp hx
      rw [hnil t ht]
      rfl
    have hP : pendingPops s = 0 := by
      simp [pendingPops, hpend]
    have hpe := hinv.pops_eq
    rw [hT, hP] at hpe
    have hdn : dCount s = jobs.length := by omega
    refine ⟨?_, rfl, hnil⟩
    rw [hinv.started_eq, hdn]
    congr 1
    omega

lemma map_enumFrom_snd {α β : Type} (f : α → β) :
    ∀ (i : Nat) (l : List α),
      (List.enumFrom i l).map (fun p => f p.2) = l.map f
  | _, [] => rfl
  | i, x :: xs => by
    show f x :: (List.enumFrom (i + 1) xs).map (fun p => f p.2) = f x :: xs.map f
    rw [map_enumFrom_snd f (i + 1) xs]

lemma appMeasure_init_le (jobs : List Job) :
    appMeasure (start_conversion true jobs) ≤ fuelFor jobs := by
  cases jobs with
  | nil =>
    rw [start_conversion_nil]
    simp [appMeasure, fuelFor]
  | cons j rest =>
    rw [start_conversion_cons]
    show 2 * (([(0, runScript j.cfg j.world)].map (fun t => t.2.length)).sum) + 0 +
        (((List.enumFrom 0 (j :: rest)).drop 1).map
          (fun p => 2 * (runScript p.2.cfg p.2.world).length + 1)).sum ≤ fuelFor (j :: rest)
    have hdrop1 : (List.enumFrom 0 (j :: rest)).drop 1 = List.enumFrom 1 rest := rfl
    rw [hdrop1]
    rw [map_enumFrom_snd (fun jb => 2 * (runScript jb.cfg jb.world).length + 1) 1 rest]
    show 2 * ((runScript j.cfg j.world).length + 0) + 0 + _ ≤ _
    unfold fuelFor
    simp only [List.map_cons, List.sum_cons]
    omega

lemma handleTerminal_no_start {s : AppState} (hpa : s.processing_all = false) :
    (handleTerminal s).processing_all = false ∧
      (handleTerminal s).started = s.started := by
  unfold handleTerminal
  cases hq : s.converter_threads with
  | nil => exact ⟨hpa, rfl⟩
  | cons q0 rest2 =>
    refine ⟨?_, ?_⟩ <;> simp [hpa]

lemma step_single {l : Label} {s s2 : AppState}
    (h : step l s = some s2) (hpa : s.processing_all = false) :
    s2.processing_all = false ∧ s2.started = s.started := by
  cases l with
  | tstep k =>
    have hts : threadStep k s = some s2 := h
    obtain ⟨-, -, hpa2, hst, -, -⟩ := threadStep_facts hts
    exact ⟨hpa2.trans hpa, hst⟩
  | mstep =>
    have hms : mainStep s = some s2 := h
    unfold mainStep at hms
    cases hpend : s.pending with
    | nil =>
      rw [hpend] at hms
      simp at hms
    | cons pe rest =>
      rw [hpend] at hms
      simp only [Option.some.injEq] at hms
      cases he : pe.2 with
      | progressUpdate p eta =>
        rw [he] at hms
        rw [← hms]
        exact ⟨hpa, rfl⟩
      | conversionComplete o =>
        rw [he] at hms
        rw [← hms]
        exact handleTerminal_no_start hpa
      | conversionError m =>
        rw [he] at hms
        rw [← hms]
        exact handleTerminal_no_start hpa
  | cancelAct =>
    have hc : some (cancel_conversion s) = some s2 := h
    obtain rfl : cancel_conversion s = s2 := Option.some.inj hc
    exact ⟨hpa, rfl⟩

lemma exec_single : ∀ (labels : List Label) (s s2 : AppState),
    s.processing_all = false → exec labels s = some s2 →
    s2.processing_all = false ∧ s2.started = s.started
  | [], s, s2, hpa, h => by
    simp only [exec, Option.some.injEq] at h
    rw [← h]
    exact ⟨hpa, rfl⟩
  | l :: ls, s, s2, hpa, h => by
    simp only [exec] at h
    cases hstep : step l s with
    | none =>
      rw [hstep] at h
      simp at h
    | some s1 =>
      rw [hstep] at h
      simp only [Option.some_bind] at h
      obtain ⟨hpa1, hst1⟩ := step_single hstep hpa
      obtain ⟨hpa2, hst2⟩ := exec_single ls s1 s2 hpa1 h
      exact ⟨hpa2, hst2.trans hst1⟩

lemma start_conversion_single_facts (jobs : List Job) :
    (start_conversion false jobs).processing_all = false ∧
      (start_conversion false jobs).started.length ≤ 1 := by
  cases jobs with
  | nil =>
    rw [start_conversion_nil]
    exact ⟨rfl, by simp⟩
  | cons j rest =>
    rw [start_conversion_cons]
    exact ⟨rfl, by simp⟩

/-- C4.  For every submitted sequence of jobs (each plain, i.e. not
taking the mid-run NVENC-fallback branch, under which every run emits
exactly one terminal signal): in batch mode the canonical execution
runs to quiescence with every job started and every started worker's
script fully executed — a per-job failure never halts the remaining
queue; in single (non-batch) mode, under every schedule, no job beyond
the first is ever started — in particular the first failure halts the
queue immediately. -/
theorem C4_batch_continues_single_halts (jobs : List Job)
    (hplain : ∀ j ∈ jobs, fallbackJob j = false) :
    ((canonExec (fuelFor jobs) (start_conversion true jobs)).started =
        List.range jobs.length ∧
      (canonExec (fuelFor jobs) (start_conversion true jobs)).pending = [] ∧
      ∀ t ∈ (canonExec (fuelFor jobs) (start_conversion true jobs)).threads,
        t.2 = []) ∧
    ((start_conversion false jobs).started.length ≤ 1 ∧
      ∀ (labels : List Label) (s2 : AppState),
        exec labels (start_conversion false jobs) = some s2 →
        s2.started = (start_conversion false jobs).started) := by
  constructor
  · have hinv0 := batchInv_init jobs hplain
    have hinvF := canonExec_preserves (BatchInv jobs)
      (fun s l s2 hp hs hi => batchInv_step hplain hp hs hi)
      (fuelFor jobs) _ hinv0
    have hstuck := canonExec_stuck (fuelFor jobs) _ (appMeasure_init_le jobs)
    exact batchInv_final hinvF hstuck
  · refine ⟨(start_conversion_single_facts jobs).2, ?_⟩
    intro labels s2 hexec
    exact (exec_single labels _ s2 (start_conversion_single_facts jobs).1 hexec).2

example :
    (canonExec (fuelFor [softJob, failJob])
        (start_conversion true [softJob, failJob])).started = [0, 1] := by decide

example :
    (canonExec (fuelFor [failJob, softJob, softJob2])
        (start_conversion true [failJob, softJob, softJob2])).started = [0, 1, 2] := by
  decide

/-- C4, witness: a concrete two-job batch (one success, one failure)
in which both jobs are started. -/
theorem C4_witness :
    (canonExec (fuelFor [softJob, failJob])
        (start_conversion true [softJob, failJob])).started =
      List.range ([softJob, failJob] : List Job).length :=
  (C4_batch_continues_single_halts [softJob, failJob] (by decide)).1.1

end VideoConverter
